import Mathlib

/-!
The header `shared_library.h`

A shallow embedding of `emulator/opengl/shared/emugl/common/shared_library.h`:

* the conditional definition of the macro `EMUGL_LIBNAME`, as a function of the
  set of predefined preprocessor macros and of the base name;
* the interface of the class `SharedLibrary`.
-/

namespace emugl

/-! ## The preprocessor -/

/-- The predefined macros of one compilation (one build target), by name. -/
abbrev MacroEnv := List String

/-- The preprocessor operator `defined(m)`. -/
def defined (env : MacroEnv) (m : String) : Bool :=
  env.contains m

/-- The macro `EMUGL_LIBNAME(name)`:

    #if defined(__x86_64__)
    #  define EMUGL_LIBNAME(name) "lib64" name
    #elif defined(__i386__)
    #  define EMUGL_LIBNAME(name) "lib" name
    #else
    /* ... Don't #error, leave it undefined */
    #endif

The expansion juxtaposes two string literals, which the compiler concatenates.
The result is `none` where the macro is left undefined. -/
def EMUGL_LIBNAME (env : MacroEnv) (name : String) : Option String :=
  if defined env "__x86_64__" then some ("lib64" ++ name)
  else if defined env "__i386__" then some ("lib" ++ name)
  else none

/-- What the header looks at in a build target: the platform (`_WIN32`, tested
for `HandleType` and `<windows.h>`) and the architecture, which fixes the word
size (`__x86_64__`, `__i386__`). -/
structure Target where
  win32 : Bool
  x86_64 : Bool
  i386 : Bool
deriving DecidableEq, Repr

/-- The build target described by a set of predefined macros. -/
def targetOf (env : MacroEnv) : Target :=
  { win32 := defined env "_WIN32"
    x86_64 := defined env "__x86_64__"
    i386 := defined env "__i386__" }

/-- Number of characters the macro puts in front of the base name. -/
def decorationLength (env : MacroEnv) : Nat :=
  if defined env "__x86_64__" then 5 else 3

/-! ## The class `SharedLibrary` -/

/-- The private typedef `HandleType` (`HMODULE` under `_WIN32`, `void*`
otherwise): an address-sized value. -/
abbrev HandleType := Nat

/-- The typedef `FunctionPtr` (`void (*)(void)`): a code address, `0` for `NULL`. -/
abbrev FunctionPtr := Nat

/-- The class `SharedLibrary`: its one data member is `HandleType mLib`. The
constructor `SharedLibrary(HandleType)` is private. -/
structure SharedLibrary where
  mLib : HandleType
deriving DecidableEq, Repr

/-- The operating system loader as `open` sees it: a partial function from
library identifiers to handles, `none` where the library cannot be loaded. -/
abbrev Loader := String → Option HandleType

/-- The export tables of the loaded libraries: for a handle, a partial map
from symbol names to addresses. -/
abbrev Exports := HandleType → String → Option FunctionPtr

/-- Modelled from the spec: the body of `SharedLibrary::open`, which the
header only declares. The identifier goes to the loader; on success the result
is a new instance wrapping the handle the loader returned, on failure it is
`NULL` (`none`) and no instance is constructed. -/
def SharedLibrary.open (loader : Loader) (libraryName : String) : Option SharedLibrary :=
  match loader libraryName with
  | some lib => some (SharedLibrary.mk lib)
  | none => none

/-- Modelled from the spec: the body of `SharedLibrary::findSymbol`, which the
header only declares. The name is looked up, as given, in the export table of
the library behind `mLib`; the result is the address found, or `NULL` (`0`).
The second component is the instance after the call. -/
def SharedLibrary.findSymbol (exports : Exports) (self : SharedLibrary)
    (symbolName : String) : FunctionPtr × SharedLibrary :=
  match exports self.mLib symbolName with
  | some addr => (addr, self)
  | none => (0, self)

/-- The copy constructor `SharedLibrary(const SharedLibrary&)`. The class
declares no copy constructor and no copy assignment operator, so both are
implicitly declared, public, and copy the members one by one. -/
def SharedLibrary.copy (other : SharedLibrary) : SharedLibrary :=
  { mLib := other.mLib }

/-- Modelled from the spec: the body of `SharedLibrary::~SharedLibrary`, which
the header only declares. It releases the handle held in `mLib`; the result is
the handle given back to the operating system. -/
def SharedLibrary.destroy (self : SharedLibrary) : HandleType :=
  self.mLib

/-- A live object of class `SharedLibrary` in a caller, together with the
number of the `open` call that acquired the handle it holds. -/
structure Object where
  self : SharedLibrary
  acquisition : Nat
deriving DecidableEq, Repr

/-- The objects of a caller: the live ones, the number of successful `open`
calls so far, and the acquisitions released so far, the latest first, each
with the handle that was given back. -/
structure Heap where
  live : List Object
  opens : Nat
  released : List (Nat × HandleType)
deriving DecidableEq, Repr

/-- No object yet. -/
def Heap.empty : Heap :=
  { live := [], opens := 0, released := [] }

/-- What a caller can do with the class, going by the access of its members:
call the public static `open`, copy a live object with the implicitly declared
copy constructor, and destroy a live object (`delete`, or the end of its scope). -/
inductive Stmt where
  | callOpen (libraryName : String)
  | copyConstruct (i : Nat)
  | destroy (i : Nat)
deriving DecidableEq, Repr

/-- One statement of a caller. Objects are named by their position among the
live ones; a statement on a position that names no live object does nothing. -/
def exec (loader : Loader) (hp : Heap) : Stmt → Heap
  | Stmt.callOpen libraryName =>
    match SharedLibrary.open loader libraryName with
    | some lib =>
      { live := hp.live ++ [{ self := lib, acquisition := hp.opens }]
        opens := hp.opens + 1
        released := hp.released }
    | none => hp
  | Stmt.copyConstruct i =>
    match hp.live[i]? with
    | some o =>
      { hp with live := hp.live ++ [{ self := o.self.copy, acquisition := o.acquisition }] }
    | none => hp
  | Stmt.destroy i =>
    match hp.live[i]? with
    | some o =>
      { hp with
        live := hp.live.eraseIdx i
        released := (o.acquisition, o.self.destroy) :: hp.released }
    | none => hp

/-- A caller: its statements in order, from a given heap. -/
def run (loader : Loader) (hp : Heap) (prog : List Stmt) : Heap :=
  prog.foldl (exec loader) hp

/-- A loader that knows one library, `libFoo`, at handle `4096`. -/
def fooLoader : Loader :=
  fun libraryName => if libraryName = "libFoo" then some 4096 else none

/-- Export tables where the library at handle `4096` exports `Foo` and
`my_func`, and nothing else is exported. -/
def fooExports : Exports :=
  fun lib symbolName =>
    if lib = 4096 then
      if symbolName = "Foo" then some 8192
      else if symbolName = "my_func" then some 8200
      else none
    else none

/-- A handle is valid when the loader yields it for some identifier. -/
def ValidHandle (loader : Loader) (lib : HandleType) : Prop :=
  ∃ libraryName, loader libraryName = some lib

/-- Whether a statement is a copy construction. -/
def Stmt.isCopy : Stmt → Bool
  | Stmt.copyConstruct _ => true
  | _ => false

/-- Exclusive ownership in a heap: no two live objects hold the handle of one
`open` call, no acquisition was released twice, none that was released is
still held, and every acquisition comes from an `open` call already made. -/
structure Exclusive (hp : Heap) : Prop where
  live_nodup : (hp.live.map Object.acquisition).Nodup
  live_lt : ∀ o ∈ hp.live, o.acquisition < hp.opens
  released_nodup : (hp.released.map Prod.fst).Nodup
  released_lt : ∀ r ∈ hp.released, r.1 < hp.opens
  live_not_released : ∀ o ∈ hp.live, ∀ r ∈ hp.released, o.acquisition ≠ r.1

/-! ## Strings -/

theorem append_left_cancel (p a b : String) (h : p ++ a = p ++ b) : a = b := by
  have hd := congrArg String.data h
  simp only [String.data_append] at hd
  exact String.ext (List.append_cancel_left hd)

theorem lib64_append_ne_lib_append (n : String) : "lib64" ++ n ≠ "lib" ++ n := by
  intro h
  have hl := congrArg String.length h
  simp only [String.length_append] at hl
  have h64 : ("lib64" : String).length = 5 := by decide
  have h32 : ("lib" : String).length = 3 := by decide
  omega

theorem drop_length_append (p a : String) : (p ++ a).drop p.length = a := by
  apply String.ext
  rw [String.data_drop, String.data_append, String.length]
  exact List.drop_left _ _

/-! ## The naming policy -/

/-- C1: on an x86_64 target, `EMUGL_LIBNAME(n)` is `"lib64"` followed by `n`
for every base name `n`; in particular `EMUGL_LIBNAME("foo")` is `"lib64foo"`. -/
theorem EMUGL_LIBNAME_x86_64 (env : MacroEnv) (n : String)
    (h : defined env "__x86_64__" = true) :
    EMUGL_LIBNAME env n = some ("lib64" ++ n) ∧
      EMUGL_LIBNAME env "foo" = some "lib64foo" := by
  constructor
  · simp [EMUGL_LIBNAME, h]
  · simp only [EMUGL_LIBNAME, h, if_true]
    decide

theorem EMUGL_LIBNAME_x86_64_witness :
    defined ["__linux__", "__x86_64__"] "__x86_64__" = true ∧
      (EMUGL_LIBNAME ["__linux__", "__x86_64__"] "OpenglRender"
          = some ("lib64" ++ "OpenglRender") ∧
        EMUGL_LIBNAME ["__linux__", "__x86_64__"] "foo" = some "lib64foo") :=
  ⟨by decide, EMUGL_LIBNAME_x86_64 ["__linux__", "__x86_64__"] "OpenglRender" (by decide)⟩

/-- C2: for every base name `n`, the decoration of `n` under `__x86_64__`
differs from the decoration of `n` under `__i386__`. -/
theorem EMUGL_LIBNAME_x86_64_ne_i386 (e64 e32 : MacroEnv) (n : String)
    (h64 : defined e64 "__x86_64__" = true)
    (h32 : defined e32 "__i386__" = true) (hn : defined e32 "__x86_64__" = false) :
    EMUGL_LIBNAME e64 n ≠ EMUGL_LIBNAME e32 n := by
  simp only [EMUGL_LIBNAME, h64, h32, hn, if_true, Bool.false_eq_true, if_false]
  intro h
  exact lib64_append_ne_lib_append n (Option.some.inj h)

theorem EMUGL_LIBNAME_x86_64_ne_i386_witness :
    defined ["__x86_64__"] "__x86_64__" = true ∧
      defined ["__i386__"] "__i386__" = true ∧
      defined ["__i386__"] "__x86_64__" = false ∧
      EMUGL_LIBNAME ["__x86_64__"] "render_core"
        ≠ EMUGL_LIBNAME ["__i386__"] "render_core" :=
  ⟨by decide, by decide, by decide,
    EMUGL_LIBNAME_x86_64_ne_i386 ["__x86_64__"] ["__i386__"] "render_core"
      (by decide) (by decide) (by decide)⟩

/-- C8: on an i386 target, `EMUGL_LIBNAME(n)` is `"lib"` followed by `n`, for
every base name `n`: nothing stands between `"lib"` and the base name. -/
theorem EMUGL_LIBNAME_i386 (env : MacroEnv) (n : String)
    (h32 : defined env "__i386__" = true) (hn : defined env "__x86_64__" = false) :
    EMUGL_LIBNAME env n = some ("lib" ++ n) := by
  simp [EMUGL_LIBNAME, h32, hn]

theorem EMUGL_LIBNAME_i386_witness :
    defined ["__linux__", "__i386__"] "__i386__" = true ∧
      defined ["__linux__", "__i386__"] "__x86_64__" = false ∧
      EMUGL_LIBNAME ["__linux__", "__i386__"] "GLES_CM_translator"
        = some ("lib" ++ "GLES_CM_translator") :=
  ⟨by decide, by decide,
    EMUGL_LIBNAME_i386 ["__linux__", "__i386__"] "GLES_CM_translator" (by decide) (by decide)⟩

/-- C9, as the claim states it, fails: on a target that defines neither
`__x86_64__` nor `__i386__` (here an ARM one) the macro is left undefined. -/
theorem EMUGL_LIBNAME_undefined_on_arm :
    defined ["__linux__", "__arm__"] "__x86_64__" = false ∧
      defined ["__linux__", "__arm__"] "__i386__" = false ∧
      EMUGL_LIBNAME ["__linux__", "__arm__"] "foo" = none := by
  decide

/-- C9, amended: `EMUGL_LIBNAME` yields a decorated name for a base name
exactly on the targets that define `__x86_64__` or `__i386__`; on every other
target it is undefined. -/
theorem EMUGL_LIBNAME_isSome_iff (env : MacroEnv) (n : String) :
    (EMUGL_LIBNAME env n).isSome = true ↔
      (defined env "__x86_64__" = true ∨ defined env "__i386__" = true) := by
  unfold EMUGL_LIBNAME
  cases defined env "__x86_64__" <;> cases defined env "__i386__" <;> simp

/-- C10: on each target where `EMUGL_LIBNAME` is defined the decoration is
injective in the base name, and dropping the fixed number of leading characters
(5 on x86_64, 3 on i386) from the decorated name gives the base name back. -/
theorem EMUGL_LIBNAME_injective (env : MacroEnv) (a b : String)
    (hdef : defined env "__x86_64__" = true ∨ defined env "__i386__" = true) :
    (EMUGL_LIBNAME env a = EMUGL_LIBNAME env b → a = b) ∧
      (EMUGL_LIBNAME env a).map (fun s => s.drop (decorationLength env)) = some a ∧
      decorationLength env = (if defined env "__x86_64__" = true then 5 else 3) := by
  have h64 : ("lib64" : String).length = 5 := by decide
  have h32 : ("lib" : String).length = 3 := by decide
  unfold EMUGL_LIBNAME decorationLength
  cases hx : defined env "__x86_64__"
  · have hi : defined env "__i386__" = true := by
      rcases hdef with h | h
      · rw [hx] at h; exact absurd h (by decide)
      · exact h
    simp only [hi, Bool.false_eq_true, if_false, if_true, Option.map_some', and_true]
    refine ⟨fun h => append_left_cancel _ _ _ (Option.some.inj h), ?_⟩
    rw [← h32, drop_length_append]
  · simp only [if_true, Option.map_some', and_true]
    refine ⟨fun h => append_left_cancel _ _ _ (Option.some.inj h), ?_⟩
    rw [← h64, drop_length_append]

theorem EMUGL_LIBNAME_injective_witness :
    (defined ["__i386__"] "__x86_64__" = true ∨ defined ["__i386__"] "__i386__" = true) ∧
      ((EMUGL_LIBNAME ["__i386__"] "64foo" = EMUGL_LIBNAME ["__i386__"] "foo" →
          "64foo" = "foo") ∧
        (EMUGL_LIBNAME ["__i386__"] "64foo").map
            (fun s => s.drop (decorationLength ["__i386__"])) = some "64foo" ∧
        decorationLength ["__i386__"]
          = (if defined ["__i386__"] "__x86_64__" = true then 5 else 3)) :=
  ⟨by decide, EMUGL_LIBNAME_injective ["__i386__"] "64foo" "foo" (by decide)⟩

/-- C3, as the claim states it, fails: the conditions around `EMUGL_LIBNAME`
do not test the platform, so a 64-bit Linux target and a 64-bit Windows target
decorate `"render_core"` to the same name. -/
theorem EMUGL_LIBNAME_linux64_eq_win64 :
    defined ["__linux__", "__x86_64__"] "_WIN32" = false ∧
      defined ["__linux__", "__x86_64__"] "__x86_64__" = true ∧
      defined ["_WIN32", "_WIN64", "__x86_64__"] "_WIN32" = true ∧
      EMUGL_LIBNAME ["__linux__", "__x86_64__"] "render_core"
        = EMUGL_LIBNAME ["_WIN32", "_WIN64", "__x86_64__"] "render_core" := by
  decide

/-- C3, amended: for every base name, the decorated name on a 64-bit
Linux-like target (x86_64, not Windows) differs from the one on a Windows
target exactly when the Windows target is not an x86_64 one. -/
theorem EMUGL_LIBNAME_linux64_ne_windows_iff (lin win : MacroEnv) (n : String)
    (_hl : defined lin "_WIN32" = false) (hl64 : defined lin "__x86_64__" = true)
    (_hw : defined win "_WIN32" = true) :
    EMUGL_LIBNAME lin n ≠ EMUGL_LIBNAME win n ↔ defined win "__x86_64__" = false := by
  unfold EMUGL_LIBNAME
  rw [hl64]
  cases hx : defined win "__x86_64__"
  · cases hi : defined win "__i386__"
    · simp
    · simp only [if_true, Bool.false_eq_true, if_false, ne_eq, iff_true]
      intro h
      exact lib64_append_ne_lib_append n (Option.some.inj h)
  · simp

theorem EMUGL_LIBNAME_linux64_ne_windows_iff_witness :
    defined ["__linux__", "__x86_64__"] "_WIN32" = false ∧
      defined ["__linux__", "__x86_64__"] "__x86_64__" = true ∧
      defined ["_WIN32", "__i386__"] "_WIN32" = true ∧
      (EMUGL_LIBNAME ["__linux__", "__x86_64__"] "render_core"
          ≠ EMUGL_LIBNAME ["_WIN32", "__i386__"] "render_core" ↔
        defined ["_WIN32", "__i386__"] "__x86_64__" = false) :=
  ⟨by decide, by decide, by decide,
    EMUGL_LIBNAME_linux64_ne_windows_iff ["__linux__", "__x86_64__"] ["_WIN32", "__i386__"]
      "render_core" (by decide) (by decide) (by decide)⟩

/-- C4: the naming policy is deterministic and depends on nothing but the
build target and the base name: two compilations whose predefined macros
describe the same target give the same base name the same decorated name (or
both leave the macro undefined), whatever else they define. -/
theorem EMUGL_LIBNAME_deterministic (e₁ e₂ : MacroEnv) (n₁ n₂ : String)
    (ht : targetOf e₁ = targetOf e₂) (hn : n₁ = n₂) :
    EMUGL_LIBNAME e₁ n₁ = EMUGL_LIBNAME e₂ n₂ := by
  have hx : defined e₁ "__x86_64__" = defined e₂ "__x86_64__" :=
    congrArg Target.x86_64 ht
  have hi : defined e₁ "__i386__" = defined e₂ "__i386__" :=
    congrArg Target.i386 ht
  unfold EMUGL_LIBNAME
  rw [hx, hi, hn]

theorem EMUGL_LIBNAME_deterministic_witness :
    targetOf ["__linux__", "__x86_64__", "NDEBUG"] = targetOf ["__x86_64__", "__linux__"] ∧
      "render_core" = "render_core" ∧
      EMUGL_LIBNAME ["__linux__", "__x86_64__", "NDEBUG"] "render_core"
        = EMUGL_LIBNAME ["__x86_64__", "__linux__"] "render_core" :=
  ⟨by decide, rfl,
    EMUGL_LIBNAME_deterministic ["__linux__", "__x86_64__", "NDEBUG"]
      ["__x86_64__", "__linux__"] "render_core" "render_core" (by decide) rfl⟩

/-! ## Opening a library -/

theorem open_eq_some_iff (loader : Loader) (libraryName : String) (lib : SharedLibrary) :
    SharedLibrary.open loader libraryName = some lib ↔ loader libraryName = some lib.mLib := by
  unfold SharedLibrary.open
  cases h : loader libraryName with
  | none => simp
  | some v =>
    cases lib with
    | mk m => simp

theorem exec_live_valid (loader : Loader) (hp : Heap) (st : Stmt)
    (h : ∀ o ∈ hp.live, ValidHandle loader o.self.mLib) :
    ∀ o ∈ (exec loader hp st).live, ValidHandle loader o.self.mLib := by
  cases st with
  | callOpen libraryName =>
    simp only [exec]
    cases hopen : SharedLibrary.open loader libraryName with
    | none => exact h
    | some lib =>
      intro o ho
      rcases List.mem_append.mp ho with ho | ho
      · exact h o ho
      · rw [List.mem_singleton] at ho
        subst ho
        exact ⟨libraryName, (open_eq_some_iff loader libraryName lib).mp hopen⟩
  | copyConstruct i =>
    simp only [exec]
    cases hget : hp.live[i]? with
    | none => exact h
    | some src =>
      intro o ho
      rcases List.mem_append.mp ho with ho | ho
      · exact h o ho
      · rw [List.mem_singleton] at ho
        subst ho
        exact h src (List.getElem?_mem hget)
  | destroy i =>
    simp only [exec]
    cases hget : hp.live[i]? with
    | none => exact h
    | some src =>
      intro o ho
      exact h o (List.mem_of_mem_eraseIdx ho)

theorem run_live_valid (loader : Loader) (prog : List Stmt) (hp : Heap)
    (h : ∀ o ∈ hp.live, ValidHandle loader o.self.mLib) :
    ∀ o ∈ (run loader hp prog).live, ValidHandle loader o.self.mLib := by
  induction prog generalizing hp with
  | nil => exact h
  | cons st rest ih => exact ih (exec loader hp st) (exec_live_valid loader hp st h)

/-- C5: `open` returns an instance only when the loader yields a handle for
the identifier, and the instance holds that handle; for an identifier the
loader cannot load it returns `NULL` and constructs nothing; so every instance
that exists in a caller holds a valid handle. -/
theorem SharedLibrary_open_spec (loader : Loader) (libraryName : String) :
    (∀ lib, SharedLibrary.open loader libraryName = some lib ↔
        loader libraryName = some lib.mLib) ∧
      (loader libraryName = none ↔ SharedLibrary.open loader libraryName = none) ∧
      (loader libraryName = none →
        run loader Heap.empty [Stmt.callOpen libraryName] = Heap.empty) ∧
      (∀ prog, ∀ o ∈ (run loader Heap.empty prog).live, ValidHandle loader o.self.mLib) := by
  refine ⟨open_eq_some_iff loader libraryName, ?_, ?_, ?_⟩
  · unfold SharedLibrary.open
    cases loader libraryName <;> simp
  · intro h
    simp [run, exec, SharedLibrary.open, h]
  · intro prog
    apply run_live_valid
    intro o ho
    simp [Heap.empty] at ho

theorem SharedLibrary_open_spec_witness :
    SharedLibrary.open fooLoader "libFoo" = some { mLib := 4096 } ∧
      SharedLibrary.open fooLoader "libBar" = none :=
  ⟨((SharedLibrary_open_spec fooLoader "libFoo").1 { mLib := 4096 }).mpr (by decide),
    (SharedLibrary_open_spec fooLoader "libBar").2.1.mp (by decide)⟩

/-! ## Looking a symbol up -/

/-- C6: on an open instance, with the export table of its library a partial
map from names to non-null addresses, `findSymbol` returns the address of
`symbolName` when that very name is exported and `NULL` when it is not, so the
result is non-null exactly when the name is exported; the instance is
unchanged. -/
theorem SharedLibrary_findSymbol_spec (exports : Exports) (self : SharedLibrary)
    (symbolName : String) (hnn : ∀ s a, exports self.mLib s = some a → a ≠ 0) :
    (∀ a, exports self.mLib symbolName = some a →
        (self.findSymbol exports symbolName).1 = a ∧ a ≠ 0) ∧
      (exports self.mLib symbolName = none →
        (self.findSymbol exports symbolName).1 = 0) ∧
      ((self.findSymbol exports symbolName).1 ≠ 0 ↔
        (exports self.mLib symbolName).isSome = true) ∧
      (self.findSymbol exports symbolName).2 = self := by
  unfold SharedLibrary.findSymbol
  cases h : exports self.mLib symbolName with
  | none => simp
  | some addr =>
    have hne : addr ≠ 0 := hnn symbolName addr h
    simp [hne]

theorem fooExports_ne_null (lib : HandleType) (s : String) (a : FunctionPtr)
    (h : fooExports lib s = some a) : a ≠ 0 := by
  unfold fooExports at h
  split_ifs at h <;> cases h <;> decide

theorem SharedLibrary_findSymbol_spec_witness :
    (∀ s a, fooExports (SharedLibrary.mk 4096).mLib s = some a → a ≠ 0) ∧
      ((SharedLibrary.mk 4096).findSymbol fooExports "foo").1 = 0 ∧
      fooExports 4096 "Foo" = some 8192 ∧
      ((SharedLibrary.mk 4096).findSymbol fooExports "Foo").1 = 8192 :=
  ⟨fun s a h => fooExports_ne_null _ s a h,
    (SharedLibrary_findSymbol_spec fooExports (SharedLibrary.mk 4096) "foo"
      (fun s a h => fooExports_ne_null _ s a h)).2.1 (by decide),
    by decide,
    ((SharedLibrary_findSymbol_spec fooExports (SharedLibrary.mk 4096) "Foo"
      (fun s a h => fooExports_ne_null _ s a h)).1 8192 (by decide)).1⟩

/-! ## Ownership of the handle -/

theorem eraseIdx_acquisition_ne (l : List Object) (i : Nat) (o : Object)
    (hnd : (l.map Object.acquisition).Nodup) (hget : l[i]? = some o) :
    ∀ p ∈ l.eraseIdx i, p.acquisition ≠ o.acquisition := by
  induction l generalizing i with
  | nil => simp at hget
  | cons a t ih =>
    rw [List.map_cons, List.nodup_cons] at hnd
    cases i with
    | zero =>
      simp only [List.getElem?_cons_zero, Option.some.injEq] at hget
      subst hget
      intro p hp heq
      exact hnd.1 (heq ▸ List.mem_map_of_mem Object.acquisition hp)
    | succ j =>
      simp only [List.getElem?_cons_succ] at hget
      intro p hp
      rw [List.eraseIdx_cons_succ, List.mem_cons] at hp
      rcases hp with hp | hp
      · subst hp
        intro heq
        exact hnd.1 (heq ▸ List.mem_map_of_mem Object.acquisition (List.getElem?_mem hget))
      · exact ih j hnd.2 hget p hp

theorem exec_exclusive (loader : Loader) (hp : Heap) (st : Stmt)
    (hst : st.isCopy = false) (h : Exclusive hp) : Exclusive (exec loader hp st) := by
  cases st with
  | callOpen libraryName =>
    simp only [exec]
    cases SharedLibrary.open loader libraryName with
    | none => exact h
    | some lib =>
      refine ⟨?_, ?_, h.released_nodup, ?_, ?_⟩
      · simp only [List.map_append, List.map_cons, List.map_nil]
        refine List.Nodup.append h.live_nodup (List.nodup_singleton _) ?_
        intro a ha hb
        rw [List.mem_singleton] at hb
        obtain ⟨o, ho, rfl⟩ := List.mem_map.mp ha
        have := h.live_lt o ho
        omega
      · intro o ho
        rcases List.mem_append.mp ho with ho | ho
        · exact Nat.lt_succ_of_lt (h.live_lt o ho)
        · rw [List.mem_singleton] at ho
          subst ho
          exact Nat.lt_succ_self _
      · intro r hr
        exact Nat.lt_succ_of_lt (h.released_lt r hr)
      · intro o ho r hr
        rcases List.mem_append.mp ho with ho | ho
        · exact h.live_not_released o ho r hr
        · rw [List.mem_singleton] at ho
          subst ho
          exact Nat.ne_of_gt (h.released_lt r hr)
  | copyConstruct i => simp [Stmt.isCopy] at hst
  | destroy i =>
    simp only [exec]
    cases hget : hp.live[i]? with
    | none => exact h
    | some src =>
      have hsrc : src ∈ hp.live := List.getElem?_mem hget
      refine ⟨?_, ?_, ?_, ?_, ?_⟩
      · exact h.live_nodup.sublist ((List.eraseIdx_sublist hp.live i).map _)
      · intro o ho
        exact h.live_lt o (List.mem_of_mem_eraseIdx ho)
      · simp only [List.map_cons]
        refine List.nodup_cons.mpr ⟨?_, h.released_nodup⟩
        intro hmem
        obtain ⟨r, hr, hreq⟩ := List.mem_map.mp hmem
        exact h.live_not_released src hsrc r hr hreq.symm
      · intro r hr
        rcases List.mem_cons.mp hr with hr | hr
        · subst hr
          exact h.live_lt src hsrc
        · exact h.released_lt r hr
      · intro o ho r hr
        rcases List.mem_cons.mp hr with hr | hr
        · subst hr
          exact eraseIdx_acquisition_ne hp.live i src h.live_nodup hget o ho
        · exact h.live_not_released o (List.mem_of_mem_eraseIdx ho) r hr

/-- Without the copy constructor ownership is exclusive: in a caller that only
opens and destroys, no two live objects hold the handle of one `open` call and
no acquisition is released twice. -/
theorem run_exclusive_of_no_copy (loader : Loader) (prog : List Stmt) (hp : Heap)
    (hprog : ∀ st ∈ prog, st.isCopy = false) (h : Exclusive hp) :
    Exclusive (run loader hp prog) := by
  induction prog generalizing hp with
  | nil => exact h
  | cons st rest ih =>
    exact ih (exec loader hp st) (fun s hs => hprog s (List.mem_cons_of_mem _ hs))
      (exec_exclusive loader hp st (hprog st (List.mem_cons_self _ _)) h)

theorem exclusive_empty : Exclusive Heap.empty :=
  ⟨List.nodup_nil, fun _ h => absurd h (List.not_mem_nil _), List.nodup_nil,
    fun _ h => absurd h (List.not_mem_nil _), fun _ h => absurd h (List.not_mem_nil _)⟩

/-- C7 at a caller that opens `libFoo` and copies the object: two live objects
hold the handle of the one `open` call, and destroying both gives that one
acquisition back to the operating system twice. -/
theorem SharedLibrary_copy_releases_twice :
    (run fooLoader Heap.empty [Stmt.callOpen "libFoo", Stmt.copyConstruct 0]).live
        = [{ self := { mLib := 4096 }, acquisition := 0 },
           { self := { mLib := 4096 }, acquisition := 0 }] ∧
      (run fooLoader Heap.empty
          [Stmt.callOpen "libFoo", Stmt.copyConstruct 0, Stmt.destroy 1, Stmt.destroy 0]).released
        = [(0, 4096), (0, 4096)] ∧
      ¬ Exclusive (run fooLoader Heap.empty [Stmt.callOpen "libFoo", Stmt.copyConstruct 0]) := by
  refine ⟨by decide, by decide, ?_⟩
  intro h
  exact absurd h.live_nodup (by decide)

end emugl
